import Mathlib

/-!
Shallow embedding of `source/common/upstream/logical_dns_cluster.cc`
(Envoy's LOGICAL_DNS cluster) and proofs of the specification claims.

The C++ file is a single-control-thread state machine: a constructor that
validates the configuration, a resolve-and-reschedule loop
(`startResolve` and its completion lambda), a destructor that cancels the
outstanding query, and `LogicalHost::createConnection`, which reads the
per-worker-thread cached address.  We model the cluster's mutable fields
as a record `ClusterState`, each C++ member function as a state
transformer, and the environment's scheduling discipline (timer firing,
resolver completion, teardown) as an inductive `Step` relation.  Ghost
counters (host creations, registrations, broadcasts, cancelled queries,
nonempty completions, init signals) instrument events the claims count;
they change nothing observable.
-/

namespace LogicalDns

/-- IP version of a resolved address (`Network::Address::IpVersion`). -/
inductive IpVersion where
  | v4
  | v6
deriving DecidableEq, Repr

/-- A network address compared by value, as `Network::Address::Instance`
equality compares the rendered `ip:port` string. -/
structure Address where
  version : IpVersion
  ip : String
  port : Nat
deriving DecidableEq, Repr

/-- Modelled from the spec: `Network::Utility::getAddressWithPort` (not under
`src/`) combines a resolved entry with the configured port — "combine it with
the configured Port to form a candidate ResolvedAddress". -/
def getAddressWithPort (a : Address) (port : Nat) : Address :=
  { a with port := port }

/-- Modelled from the spec: the IPv4 bind-any placeholder
(`Network::Utility::getIpv4AnyAddress`, not under `src/`). -/
def getIpv4AnyAddress : Address :=
  { version := IpVersion.v4, ip := "0.0.0.0", port := 0 }

/-- Modelled from the spec: the IPv6 bind-any placeholder
(`Network::Utility::getIpv6AnyAddress`, not under `src/`). -/
def getIpv6AnyAddress : Address :=
  { version := IpVersion.v6, ip := "::", port := 0 }

/-- The placeholder chosen by the `switch (address_list.front()->ip()->version())`
at lines 94-103 of the source. -/
def anyAddressForVersion : IpVersion → Address
  | IpVersion.v4 => getIpv4AnyAddress
  | IpVersion.v6 => getIpv6AnyAddress

/-- The single logical host (`LogicalDnsCluster::LogicalHost`).  `address` is
the placeholder it was constructed with; `health_check_address` is the field
mutated in place by `setHealthCheckAddress`. -/
structure LogicalHost where
  hostname : String
  address : Address
  health_check_address : Address
deriving DecidableEq, Repr

/-- State of one `LogicalDnsCluster` object together with the ghost
instrumentation the claims need.  `handle` is `active_dns_query_ != nullptr`;
`inflight` counts queries issued to the resolver and neither completed nor
cancelled (resolver-side view of the same handle); `per_thread_caches` holds
each worker thread's `PerThreadCurrentHostData::current_resolved_address_`. -/
structure ClusterState where
  hostname : String
  port : Nat
  dns_refresh_rate_ms : Nat
  started : Bool
  destroyed : Bool
  handle : Bool
  inflight : Nat
  timer_armed : Bool
  init_complete : Bool
  init_signals : Nat
  current_resolved_address : Option Address
  logical_host : Option LogicalHost
  per_thread_caches : List (Option Address)
  update_attempt : Nat
  update_success : Nat
  cancelled : Nat
  host_creations : Nat
  registrations : Nat
  broadcasts : Nat
  nonempty_completions : Nat
deriving DecidableEq, Repr

/-- `LogicalDnsCluster::startResolve` lines 70-76: increment the attempt
counter and issue one asynchronous resolve, keeping its cancellable handle. -/
def startResolve (s : ClusterState) : ClusterState :=
  { s with
    update_attempt := s.update_attempt + 1
    handle := true
    inflight := s.inflight + 1 }

/-- `ClusterImplBase::onPreInitComplete` (outside `src/`), modelled from the
spec: "Signal initialization complete (a one-time event; no-op on subsequent
cycles)".  The ghost `init_signals` counts actual firings. -/
def onPreInitComplete (s : ClusterState) : ClusterState :=
  if s.init_complete then s
  else { s with init_complete := true, init_signals := s.init_signals + 1 }

/-- Lines 129-130 of the completion lambda: `onPreInitComplete()` then
`resolve_timer_->enableTimer(dns_refresh_rate_ms_)`. -/
def finishResolve (s : ClusterState) : ClusterState :=
  { onPreInitComplete s with timer_armed := true }

/-- Lines 79-81 of the completion lambda: clear `active_dns_query_` and
increment the success counter.  The resolver-side `inflight` count drops with
the handle. -/
def completeEntry (s : ClusterState) : ClusterState :=
  { s with
    handle := false
    inflight := s.inflight - 1
    update_success := s.update_success + 1 }

/-- Lines 94-112: construct the `LogicalHost` with the bind-any placeholder of
the resolved entry's IP version and register it once into the priority set
(`PriorityStateManager` calls, modelled by the ghost `registrations`). -/
def createAndRegisterHost (version : IpVersion) (s : ClusterState) : ClusterState :=
  let placeholder := anyAddressForVersion version
  { s with
    logical_host := some
      { hostname := s.hostname
        address := placeholder
        health_check_address := placeholder }
    host_creations := s.host_creations + 1
    registrations := s.registrations + 1 }

/-- Line 89: `if (!logical_host_)` guard around host creation. -/
def maybeCreateHost (version : IpVersion) (s : ClusterState) : ClusterState :=
  match s.logical_host with
  | some _ => s
  | none => createAndRegisterHost version s

/-- Lines 115-126: the address-change branch.  The condition is the source's
`!current_resolved_address_ || !(*new_address == *current_resolved_address_)`;
inside it the stored address is replaced, `setHealthCheckAddress` mutates the
host in place (a null host here would be a crash, modelled as `none`), and
`runOnAllThreads` writes the new address into every worker thread's cache. -/
def applyAddressChange (new_address : Address) (s : ClusterState) : Option ClusterState :=
  if s.current_resolved_address.isNone ∨ ¬ (some new_address = s.current_resolved_address) then
    match s.logical_host with
    | none => none
    | some host =>
        some { s with
          current_resolved_address := some new_address
          logical_host := some { host with health_check_address := new_address }
          per_thread_caches := s.per_thread_caches.map (fun _ => some new_address)
          broadcasts := s.broadcasts + 1 }
  else
    some s

/-- The completion lambda of `dns_resolver_->resolve` (lines 77-131), as a
function of the resolver's result list.  `none` models the crash of an
unguarded null dereference; `nonempty_completions` is ghost. -/
def onResolveComplete (address_list : List Address) (s : ClusterState) :
    Option ClusterState :=
  let s1 := completeEntry s
  match address_list with
  | [] => some (finishResolve s1)
  | front :: _ =>
      let new_address := getAddressWithPort front s1.port
      let s2 := maybeCreateHost front.version
        { s1 with nonempty_completions := s1.nonempty_completions + 1 }
      (applyAddressChange new_address s2).map finishResolve

/-- `LogicalDnsCluster::~LogicalDnsCluster` lines 64-68: cancel the
outstanding query, if any, then destroy. -/
def destroyCluster (s : ClusterState) : ClusterState :=
  if s.handle then
    { s with
      destroyed := true
      handle := false
      inflight := s.inflight - 1
      cancelled := s.cancelled + 1 }
  else
    { s with destroyed := true }

/-- Result of `LogicalHost::createConnection`: the address the connection is
opened to (`HostImpl::createConnection` argument, line 139) and the address
captured in the returned `RealHostDescription` (line 142). -/
structure CreateConnectionData where
  connection_address : Address
  description_address : Address
deriving DecidableEq, Repr

/-- `LogicalDnsCluster::LogicalHost::createConnection` lines 134-144: read the
calling thread's `PerThreadCurrentHostData`; `ASSERT` (an abort) if its cached
address is empty, else open the connection to the cached address and snapshot
the same address into the host description. -/
def createConnection (s : ClusterState) (tid : Nat) : Option CreateConnectionData :=
  match s.per_thread_caches.getD tid none with
  | none => none
  | some addr => some { connection_address := addr, description_address := addr }

/-- Configured socket address of the single endpoint
(`envoy::api::v2::core::SocketAddress`). -/
structure SocketAddress where
  address : String
  port_value : Nat
  resolver_name : String
deriving DecidableEq, Repr

/-- One `LbEndpoint` of the load assignment; only its socket address matters
here. -/
structure LbEndpoint where
  socket_address : SocketAddress
deriving DecidableEq, Repr

/-- One `LocalityLbEndpoints` entry. -/
structure LocalityLbEndpoints where
  lb_endpoints : List LbEndpoint
deriving DecidableEq, Repr

/-- The slice of the cluster configuration the constructor reads. -/
structure ClusterConfig where
  endpoints : List LocalityLbEndpoints
  dns_refresh_rate : Option Nat
deriving DecidableEq, Repr

/-- Configuration errors thrown by the constructor (`EnvoyException`). -/
inductive ConfigError where
  | wrongEndpointCardinality
  | customResolverName
  | malformedUrl
deriving DecidableEq, Repr

/-- Line 52: `fmt::format("tcp://{}:{}", address, port_value)`. -/
def tcpUrl (address : String) (port_value : Nat) : String :=
  "tcp://" ++ address ++ ":" ++ toString port_value

/-- Characters of a string up to (excluding) its first colon. -/
def takeUntilColon : List Char → List Char
  | [] => []
  | c :: cs => if c = ':' then [] else c :: takeUntilColon cs

/-- Characters after the first colon, or `none` when there is no colon. -/
def dropThroughColon : List Char → Option (List Char)
  | [] => none
  | c :: cs => if c = ':' then some cs else dropThroughColon cs

/-- Value of a decimal digit run, accumulator style. -/
def digitsValAux : Nat → List Char → Nat
  | acc, [] => acc
  | acc, c :: cs => digitsValAux (acc * 10 + (c.toNat - 48)) cs

/-- Modelled from the spec: `Network::Utility::hostFromTcpUrl` is not under
`src/`; the spec requires construction to fail "if hostname/port cannot be
parsed from the endpoint address".  The host is what stands between the
`tcp://` scheme and the first colon after it; a URL without scheme or
without a colon after the scheme does not parse. -/
def hostFromTcpUrl (url : String) : Option String :=
  if url.data.take 6 = "tcp://".data then
    match dropThroughColon (url.data.drop 6) with
    | none => none
    | some _ => some (String.mk (takeUntilColon (url.data.drop 6)))
  else none

/-- Modelled from the spec: `Network::Utility::portFromTcpUrl` is not under
`src/`.  The port is the leading decimal digit run after the first colon
following the scheme (`std::stoi` semantics); parsing fails when that run is
empty. -/
def portFromTcpUrl (url : String) : Option Nat :=
  if url.data.take 6 = "tcp://".data then
    match dropThroughColon (url.data.drop 6) with
    | none => none
    | some after_colon =>
        match after_colon.takeWhile Char.isDigit with
        | [] => none
        | d :: ds => some (digitsValAux 0 (d :: ds))
  else none

/-- The freshly constructed cluster state: no query, no host, no resolved
address, empty per-thread caches (the lazy initializer at lines 57-59 yields
an empty `PerThreadCurrentHostData`), all counters zero. -/
def initState (hostname : String) (port refresh threads : Nat) : ClusterState :=
  { hostname := hostname
    port := port
    dns_refresh_rate_ms := refresh
    started := false
    destroyed := false
    handle := false
    inflight := 0
    timer_armed := false
    init_complete := false
    init_signals := 0
    current_resolved_address := none
    logical_host := none
    per_thread_caches := List.replicate threads none
    update_attempt := 0
    update_success := 0
    cancelled := 0
    host_creations := 0
    registrations := 0
    broadcasts := 0
    nonempty_completions := 0 }

/-- `LogicalDnsCluster::LogicalDnsCluster` lines 20-60: reject any endpoint
shape other than one locality with one endpoint, reject a custom resolver
name, derive the `tcp://host:port` URL and parse hostname and port from it
(throwing on failure), and set up the per-thread slot.  `threads` is the
number of worker threads of the hosting process. -/
def mkLogicalDnsCluster (threads : Nat) (cfg : ClusterConfig) :
    Except ConfigError ClusterState :=
  match cfg.endpoints with
  | [locality] =>
      match locality.lb_endpoints with
      | [lb] =>
          if lb.socket_address.resolver_name ≠ "" then
            Except.error ConfigError.customResolverName
          else
            match hostFromTcpUrl (tcpUrl lb.socket_address.address lb.socket_address.port_value),
                portFromTcpUrl (tcpUrl lb.socket_address.address lb.socket_address.port_value) with
            | some host, some port =>
                Except.ok (initState host port (cfg.dns_refresh_rate.getD 5000) threads)
            | _, _ => Except.error ConfigError.malformedUrl
      | _ => Except.error ConfigError.wrongEndpointCardinality
  | _ => Except.error ConfigError.wrongEndpointCardinality

/-- A state is initial when every mutable field still has its
constructor-assigned value. -/
def ClusterState.Initial (s : ClusterState) : Prop :=
  s.started = false ∧ s.destroyed = false ∧ s.handle = false ∧ s.inflight = 0 ∧
  s.timer_armed = false ∧ s.init_complete = false ∧ s.init_signals = 0 ∧
  s.current_resolved_address = none ∧ s.logical_host = none ∧
  (∀ c ∈ s.per_thread_caches, c = none) ∧
  s.update_attempt = 0 ∧ s.update_success = 0 ∧ s.cancelled = 0 ∧
  s.host_creations = 0 ∧ s.registrations = 0 ∧ s.broadcasts = 0 ∧
  s.nonempty_completions = 0

/-- The events the environment can deliver to one cluster.  `startResolve`
runs either once from `startPreInit` or from the timer callback (the source's
only call sites); a completion can fire whenever the resolver still holds an
uncancelled query — deliberately with no "not destroyed" precondition, so
that the impossibility of a post-teardown callback is proved, not assumed;
`teardown` is the destructor. -/
inductive Step : ClusterState → ClusterState → Prop where
  | startPreInit {s : ClusterState} :
      s.destroyed = false → s.started = false →
      Step s (startResolve { s with started := true })
  | timerFire {s : ClusterState} :
      s.destroyed = false → s.timer_armed = true →
      Step s (startResolve { s with timer_armed := false })
  | resolveComplete {s s' : ClusterState} (address_list : List Address) :
      1 ≤ s.inflight → onResolveComplete address_list s = some s' →
      Step s s'
  | teardown {s : ClusterState} :
      s.destroyed = false → Step s (destroyCluster s)

/-- Reflexive-transitive closure of `Step`. -/
inductive Reachable : ClusterState → ClusterState → Prop where
  | refl (s : ClusterState) : Reachable s s
  | tail {s t u : ClusterState} : Reachable s t → Step t u → Reachable s u


/-- The inductive invariant of one cluster, closed under `Step` and true of
every freshly constructed state. -/
structure Inv (s : ClusterState) : Prop where
  inflight_eq : s.inflight = (if s.handle then 1 else 0)
  cancelled_live : s.destroyed = false → s.cancelled = 0
  destroyed_no_handle : s.destroyed = true → s.handle = false
  cancelled_le : s.cancelled ≤ 1
  timer_no_handle : s.timer_armed = true → s.handle = false
  not_started : s.started = false →
    s.handle = false ∧ s.timer_armed = false ∧ s.update_attempt = 0
  attempt_eq : s.update_attempt = s.update_success + s.cancelled + s.inflight
  resolved_host : s.current_resolved_address.isSome → s.logical_host.isSome
  reg_eq : s.registrations = s.host_creations
  creations_eq : s.host_creations = min s.nonempty_completions 1
  host_iff : s.logical_host.isSome ↔ 1 ≤ s.nonempty_completions
  signals_eq : s.init_signals = (if s.init_complete then 1 else 0)

def addrA : Address := { version := IpVersion.v4, ip := "10.0.0.5", port := 0 }

def addrB : Address := { version := IpVersion.v4, ip := "10.0.0.6", port := 0 }

def testInit : ClusterState := initState "foo.bar.com" 443 5000 2

def testStarted : ClusterState := startResolve { testInit with started := true }

def testResolved : ClusterState := (onResolveComplete [addrA] testStarted).getD testStarted

def testDestroyed : ClusterState := destroyCluster testResolved

def testLb : LbEndpoint :=
  { socket_address := { address := "foo.bar.com", port_value := 443, resolver_name := "" } }

def testLocality : LocalityLbEndpoints := { lb_endpoints := [testLb] }

def testConfig : ClusterConfig := { endpoints := [testLocality], dns_refresh_rate := none }
end LogicalDns

namespace LogicalDns

theorem initState_initial (hostname : String) (port refresh threads : Nat) :
    (initState hostname port refresh threads).Initial := by
  refine ⟨rfl, rfl, rfl, rfl, rfl, rfl, rfl, rfl, rfl, ?_, rfl, rfl, rfl, rfl, rfl, rfl, rfl⟩
  intro c hc
  exact List.eq_of_mem_replicate hc

theorem maybeCreateHost_spec (v : IpVersion) (s : ClusterState) :
    (∃ host, s.logical_host = some host ∧ maybeCreateHost v s = s) ∨
    (s.logical_host = none ∧ maybeCreateHost v s = createAndRegisterHost v s) := by
  cases h : s.logical_host with
  | none => exact Or.inr ⟨rfl, by simp [maybeCreateHost, h]⟩
  | some host => exact Or.inl ⟨host, rfl, by simp [maybeCreateHost, h]⟩

theorem applyAddressChange_cond (a : Address) (o : Option Address) :
    (o.isNone ∨ ¬ (some a = o)) ↔ ¬ (o = some a) := by
  cases o <;> simp [eq_comm]

theorem applyAddressChange_spec (a : Address) (s t : ClusterState)
    (h : applyAddressChange a s = some t) :
    (s.current_resolved_address = some a ∧ t = s) ∨
    (¬ (s.current_resolved_address = some a) ∧ ∃ host, s.logical_host = some host ∧
      t = { s with
        current_resolved_address := some a
        logical_host := some { host with health_check_address := a }
        per_thread_caches := s.per_thread_caches.map (fun _ => some a)
        broadcasts := s.broadcasts + 1 }) := by
  unfold applyAddressChange at h
  split at h
  case isTrue hcond =>
    cases hh : s.logical_host with
    | none => rw [hh] at h; cases h
    | some host =>
        rw [hh] at h
        exact Or.inr ⟨(applyAddressChange_cond a _).mp hcond, host, rfl,
          (Option.some.inj h).symm⟩
  case isFalse hcond =>
    have : s.current_resolved_address = some a := by
      by_contra hne
      exact hcond ((applyAddressChange_cond a _).mpr hne)
    exact Or.inl ⟨this, (Option.some.inj h).symm⟩

theorem applyAddressChange_isSome (a : Address) (s : ClusterState)
    (h : s.logical_host.isSome) : ∃ t, applyAddressChange a s = some t := by
  unfold applyAddressChange
  split
  · cases hh : s.logical_host with
    | none => rw [hh] at h; cases h
    | some host => exact ⟨_, rfl⟩
  · exact ⟨s, rfl⟩

theorem onResolveComplete_nil (s : ClusterState) :
    onResolveComplete [] s = some (finishResolve (completeEntry s)) := rfl

theorem onResolveComplete_cons (front : Address) (rest : List Address) (s : ClusterState) :
    onResolveComplete (front :: rest) s =
      (applyAddressChange (getAddressWithPort front s.port)
        (maybeCreateHost front.version
          { completeEntry s with
            nonempty_completions := (completeEntry s).nonempty_completions + 1 })).map
        finishResolve := rfl

theorem finishResolve_explicit (s : ClusterState) :
    finishResolve s =
      { s with
        timer_armed := true
        init_complete := true
        init_signals := (if s.init_complete then s.init_signals else s.init_signals + 1) } := by
  unfold finishResolve onPreInitComplete
  split <;> rename_i h <;> simp [h]

end LogicalDns

namespace LogicalDns

theorem maybeCreateHost_isSome (v : IpVersion) (s : ClusterState) :
    (maybeCreateHost v s).logical_host.isSome := by
  rcases maybeCreateHost_spec v s with ⟨host, hh, he⟩ | ⟨hh, he⟩
  · rw [he, hh]; rfl
  · rw [he]; simp [createAndRegisterHost]

theorem onResolveComplete_total (address_list : List Address) (s : ClusterState) :
    ∃ s', onResolveComplete address_list s = some s' := by
  cases address_list with
  | nil => exact ⟨_, rfl⟩
  | cons front rest =>
      rw [onResolveComplete_cons]
      obtain ⟨t, ht⟩ := applyAddressChange_isSome (getAddressWithPort front s.port) _
        (maybeCreateHost_isSome front.version _)
      exact ⟨finishResolve t, by rw [ht]; rfl⟩

theorem inv_of_initial {s : ClusterState} (h : s.Initial) : Inv s := by
  obtain ⟨h1, h2, h3, h4, h5, h6, h7, h8, h9, h10, h11, h12, h13, h14, h15, h16, h17⟩ := h
  refine ⟨?_, ?_, ?_, ?_, ?_, ?_, ?_, ?_, ?_, ?_, ?_, ?_⟩ <;>
    simp [h1, h2, h3, h4, h5, h6, h7, h8, h9, h11, h12, h13, h14, h15, h16, h17]

end LogicalDns

namespace LogicalDns

theorem inv_startResolve {s : ClusterState} (hs : Inv s) (hd : s.destroyed = false)
    (hh : s.handle = false) (htm : s.timer_armed = false) (hst : s.started = true) :
    Inv (startResolve s) := by
  have hi : s.inflight = 0 := by simp [hs.inflight_eq, hh]
  refine ⟨?_, ?_, ?_, ?_, ?_, ?_, ?_, ?_, ?_, ?_, ?_, ?_⟩
  · simp [startResolve, hi]
  · exact fun _ => hs.cancelled_live hd
  · simp [startResolve, hd]
  · exact hs.cancelled_le
  · simp [startResolve, htm]
  · simp [startResolve, hst]
  · have := hs.attempt_eq
    simp only [startResolve]
    omega
  · exact hs.resolved_host
  · exact hs.reg_eq
  · exact hs.creations_eq
  · exact hs.host_iff
  · exact hs.signals_eq

end LogicalDns

namespace LogicalDns

theorem inv_destroyCluster {s : ClusterState} (hs : Inv s) (hd : s.destroyed = false) :
    Inv (destroyCluster s) := by
  have hc0 : s.cancelled = 0 := hs.cancelled_live hd
  cases hh : s.handle with
  | false =>
      have hi : s.inflight = 0 := by simp [hs.inflight_eq, hh]
      refine ⟨?_, ?_, ?_, ?_, ?_, ?_, ?_, ?_, ?_, ?_, ?_, ?_⟩
      · simp [destroyCluster, hh, hi]
      · simp [destroyCluster, hh]
      · simp [destroyCluster, hh]
      · simp [destroyCluster, hh, hc0]
      · simp [destroyCluster, hh]
      · simp only [destroyCluster, hh]
        simp
        exact fun h => (hs.not_started h).2
      · have := hs.attempt_eq
        simp only [destroyCluster, hh]
        simp
        omega
      · simp only [destroyCluster, hh]
        simp
        exact hs.resolved_host
      · simp [destroyCluster, hh, hs.reg_eq]
      · simp [destroyCluster, hh, hs.creations_eq]
      · simp only [destroyCluster, hh]
        simp
        exact hs.host_iff
      · simp [destroyCluster, hh, hs.signals_eq]
  | true =>
      have hi : s.inflight = 1 := by simp [hs.inflight_eq, hh]
      refine ⟨?_, ?_, ?_, ?_, ?_, ?_, ?_, ?_, ?_, ?_, ?_, ?_⟩
      · simp [destroyCluster, hh, hi]
      · simp [destroyCluster, hh]
      · simp [destroyCluster, hh]
      · simp [destroyCluster, hh, hc0]
      · simp [destroyCluster, hh]
      · simp only [destroyCluster, hh]
        simp
        intro h
        exact absurd hh (by simp [(hs.not_started h).1])
      · have := hs.attempt_eq
        simp only [destroyCluster, hh]
        simp
        omega
      · simp only [destroyCluster, hh]
        simp
        exact hs.resolved_host
      · simp [destroyCluster, hh, hs.reg_eq]
      · simp [destroyCluster, hh, hs.creations_eq]
      · simp only [destroyCluster, hh]
        simp
        exact hs.host_iff
      · simp [destroyCluster, hh, hs.signals_eq]

end LogicalDns

namespace LogicalDns

theorem inv_onResolveComplete {s t : ClusterState} (hs : Inv s)
    (hfl : 1 ≤ s.inflight) (address_list : List Address)
    (heq : onResolveComplete address_list s = some t) : Inv t := by
  have hh : s.handle = true := by
    cases hhh : s.handle
    · rw [hs.inflight_eq, hhh] at hfl; simp at hfl
    · rfl
  have hi : s.inflight = 1 := by simp [hs.inflight_eq, hh]
  have hstarted : s.started = true := by
    cases hst : s.started
    · exact absurd hh (by simp [(hs.not_started hst).1])
    · rfl
  cases address_list with
  | nil =>
      rw [onResolveComplete_nil] at heq
      injection heq with heq
      subst heq
      rw [finishResolve_explicit]
      refine ⟨?_, ?_, ?_, ?_, ?_, ?_, ?_, ?_, ?_, ?_, ?_, ?_⟩
      · simp [completeEntry, hi]
      · exact fun h => hs.cancelled_live h
      · exact fun _ => rfl
      · exact hs.cancelled_le
      · exact fun _ => rfl
      · simp [completeEntry, hstarted]
      · have h1 := hs.attempt_eq
        simp [completeEntry]
        omega
      · exact hs.resolved_host
      · exact hs.reg_eq
      · exact hs.creations_eq
      · exact hs.host_iff
      · cases hic : s.init_complete <;> simp [completeEntry, hic, hs.signals_eq]
  | cons front rest =>
      rw [onResolveComplete_cons] at heq
      rcases maybeCreateHost_spec front.version
          { completeEntry s with
            nonempty_completions := (completeEntry s).nonempty_completions + 1 } with
        ⟨host, hhost, hM⟩ | ⟨hhost, hM⟩
      · rw [hM] at heq
        obtain ⟨u, hu, hfin⟩ := Option.map_eq_some'.mp heq
        subst hfin
        rw [finishResolve_explicit]
        have hn1 : 1 ≤ s.nonempty_completions :=
          hs.host_iff.mp (by rw [show s.logical_host = some host from hhost]; rfl)
        rcases applyAddressChange_spec _ _ _ hu with ⟨hcur, rfl⟩ | ⟨hne, host2, hhost2, rfl⟩
        · refine ⟨?_, ?_, ?_, ?_, ?_, ?_, ?_, ?_, ?_, ?_, ?_, ?_⟩
          · simp [completeEntry, hi]
          · exact fun h => hs.cancelled_live h
          · exact fun _ => rfl
          · exact hs.cancelled_le
          · exact fun _ => rfl
          · simp [completeEntry, hstarted]
          · have h1 := hs.attempt_eq
            simp [completeEntry]
            omega
          · exact fun h => hs.resolved_host h
          · exact hs.reg_eq
          · have h2 := hs.creations_eq
            simp [completeEntry]
            omega
          · simp [completeEntry, show s.logical_host = some host from hhost]
            try omega
          · cases hic : s.init_complete <;> simp [completeEntry, hic, hs.signals_eq]
        · refine ⟨?_, ?_, ?_, ?_, ?_, ?_, ?_, ?_, ?_, ?_, ?_, ?_⟩
          · simp [completeEntry, hi]
          · exact fun h => hs.cancelled_live h
          · exact fun _ => rfl
          · exact hs.cancelled_le
          · exact fun _ => rfl
          · simp [completeEntry, hstarted]
          · have h1 := hs.attempt_eq
            simp [completeEntry]
            omega
          · exact fun _ => rfl
          · exact hs.reg_eq
          · have h2 := hs.creations_eq
            simp [completeEntry]
            omega
          · simp [completeEntry]
            try omega
          · cases hic : s.init_complete <;> simp [completeEntry, hic, hs.signals_eq]
      · rw [hM] at heq
        obtain ⟨u, hu, hfin⟩ := Option.map_eq_some'.mp heq
        subst hfin
        rw [finishResolve_explicit]
        have hnone : ¬ s.logical_host.isSome := by
          simp [show s.logical_host = none from hhost]
        have hn0 : s.nonempty_completions = 0 := by
          by_contra hcon
          exact hnone (hs.host_iff.mpr (by omega))
        rcases applyAddressChange_spec _ _ _ hu with ⟨hcur, rfl⟩ | ⟨hne, host2, hhost2, rfl⟩
        · exact absurd (hs.resolved_host
            (by rw [show s.current_resolved_address = some (getAddressWithPort front
              (completeEntry s).port) from hcur]; rfl)) hnone
        · refine ⟨?_, ?_, ?_, ?_, ?_, ?_, ?_, ?_, ?_, ?_, ?_, ?_⟩
          · simp [completeEntry, createAndRegisterHost, hi]
          · exact fun h => hs.cancelled_live h
          · exact fun _ => rfl
          · exact hs.cancelled_le
          · exact fun _ => rfl
          · simp [completeEntry, createAndRegisterHost, hstarted]
          · have h1 := hs.attempt_eq
            simp [completeEntry, createAndRegisterHost]
            omega
          · exact fun _ => rfl
          · simp [completeEntry, createAndRegisterHost, hs.reg_eq]
          · have h2 := hs.creations_eq
            simp [completeEntry, createAndRegisterHost]
            omega
          · simp [completeEntry, createAndRegisterHost]
          · cases hic : s.init_complete <;>
              simp [completeEntry, createAndRegisterHost, hic, hs.signals_eq]

end LogicalDns

namespace LogicalDns

theorem inv_step {s t : ClusterState} (hs : Inv s) (h : Step s t) : Inv t := by
  cases h with
  | startPreInit hd hst =>
      obtain ⟨hh, htm, ha⟩ := hs.not_started hst
      have hs' : Inv { s with started := true } :=
        { inflight_eq := hs.inflight_eq
          cancelled_live := hs.cancelled_live
          destroyed_no_handle := hs.destroyed_no_handle
          cancelled_le := hs.cancelled_le
          timer_no_handle := hs.timer_no_handle
          not_started := by simp
          attempt_eq := hs.attempt_eq
          resolved_host := hs.resolved_host
          reg_eq := hs.reg_eq
          creations_eq := hs.creations_eq
          host_iff := hs.host_iff
          signals_eq := hs.signals_eq }
      exact inv_startResolve hs' hd hh htm rfl
  | timerFire hd htm =>
      have hh : s.handle = false := hs.timer_no_handle htm
      have hstarted : s.started = true := by
        cases hst : s.started
        · exact absurd htm (by simp [(hs.not_started hst).2.1])
        · rfl
      have hs' : Inv { s with timer_armed := false } :=
        { inflight_eq := hs.inflight_eq
          cancelled_live := hs.cancelled_live
          destroyed_no_handle := hs.destroyed_no_handle
          cancelled_le := hs.cancelled_le
          timer_no_handle := by simp
          not_started := fun hst =>
            ⟨(hs.not_started hst).1, rfl, (hs.not_started hst).2.2⟩
          attempt_eq := hs.attempt_eq
          resolved_host := hs.resolved_host
          reg_eq := hs.reg_eq
          creations_eq := hs.creations_eq
          host_iff := hs.host_iff
          signals_eq := hs.signals_eq }
      exact inv_startResolve hs' hd hh rfl hstarted
  | resolveComplete address_list hfl heq =>
      exact inv_onResolveComplete hs hfl address_list heq
  | teardown hd =>
      exact inv_destroyCluster hs hd

theorem inv_reachable {s0 s : ClusterState} (h0 : s0.Initial) (hr : Reachable s0 s) :
    Inv s := by
  induction hr with
  | refl => exact inv_of_initial h0
  | tail hr hstep ih => exact inv_step ih hstep

theorem no_step_after_destroy {s t : ClusterState} (hs : Inv s) (hd : s.destroyed = true) :
    ¬ Step s t := by
  intro h
  cases h with
  | startPreInit hd' hst' => rw [hd] at hd'; simp at hd'
  | timerFire hd' htm' => rw [hd] at hd'; simp at hd'
  | teardown hd' => rw [hd] at hd'; simp at hd'
  | resolveComplete address_list hfl heq =>
      have hh := hs.destroyed_no_handle hd
      rw [hs.inflight_eq, hh] at hfl
      simp at hfl

end LogicalDns

namespace LogicalDns

theorem onResolveComplete_addr_spec (front : Address) (rest : List Address)
    (s s' : ClusterState) (h : onResolveComplete (front :: rest) s = some s') :
    s'.current_resolved_address = some (getAddressWithPort front s.port) ∧
    (s.current_resolved_address = some (getAddressWithPort front s.port) →
      s'.per_thread_caches = s.per_thread_caches ∧
      s'.broadcasts = s.broadcasts ∧
      (∀ host, s.logical_host = some host → s'.logical_host = some host)) ∧
    (¬ s.current_resolved_address = some (getAddressWithPort front s.port) →
      s'.logical_host.map LogicalHost.health_check_address =
        some (getAddressWithPort front s.port) ∧
      (∀ c ∈ s'.per_thread_caches, c = some (getAddressWithPort front s.port)) ∧
      s'.broadcasts = s.broadcasts + 1) := by
  rw [onResolveComplete_cons] at h
  rcases maybeCreateHost_spec front.version
      { completeEntry s with
        nonempty_completions := (completeEntry s).nonempty_completions + 1 } with
    ⟨host, hhost, hM⟩ | ⟨hhost, hM⟩ <;> rw [hM] at h <;>
    obtain ⟨u, hu, hfin⟩ := Option.map_eq_some'.mp h <;> subst hfin <;>
    rw [finishResolve_explicit] <;>
    rcases applyAddressChange_spec _ _ _ hu with ⟨hcur, rfl⟩ | ⟨hne, host2, hhost2, rfl⟩
  · have hhost' : s.logical_host = some host := hhost
    have hcur' : s.current_resolved_address = some (getAddressWithPort front s.port) := hcur
    refine ⟨hcur', fun _ => ⟨rfl, rfl, fun host0 hh0 => hh0⟩, fun hne' => absurd hcur' hne'⟩
  · have hne' : ¬ s.current_resolved_address = some (getAddressWithPort front s.port) := hne
    refine ⟨rfl, fun hc => absurd hc hne', fun _ => ⟨rfl, ?_, rfl⟩⟩
    intro c hcm
    rw [List.mem_map] at hcm
    obtain ⟨a, _, hEq⟩ := hcm
    exact hEq.symm
  · have hcur' : s.current_resolved_address = some (getAddressWithPort front s.port) := hcur
    have hhost' : s.logical_host = none := hhost
    refine ⟨hcur', fun _ => ⟨rfl, rfl, fun host0 hh0 => ?_⟩, fun hne' => absurd hcur' hne'⟩
    rw [hhost'] at hh0
    cases hh0
  · have hne' : ¬ s.current_resolved_address = some (getAddressWithPort front s.port) := hne
    refine ⟨rfl, fun hc => absurd hc hne', fun _ => ⟨rfl, ?_, rfl⟩⟩
    intro c hcm
    rw [List.mem_map] at hcm
    obtain ⟨a, _, hEq⟩ := hcm
    exact hEq.symm

theorem onResolveComplete_host_spec (front : Address) (rest : List Address)
    (s s' : ClusterState) (h : onResolveComplete (front :: rest) s = some s') :
    s'.nonempty_completions = s.nonempty_completions + 1 ∧
    (s.logical_host = none →
      s'.host_creations = s.host_creations + 1 ∧
      s'.registrations = s.registrations + 1 ∧
      ∃ host, s'.logical_host = some host ∧
        host.hostname = s.hostname ∧
        host.address = anyAddressForVersion front.version) ∧
    (∀ host0, s.logical_host = some host0 →
      s'.host_creations = s.host_creations ∧
      s'.registrations = s.registrations ∧
      ∃ host', s'.logical_host = some host' ∧
        host'.hostname = host0.hostname ∧ host'.address = host0.address) := by
  rw [onResolveComplete_cons] at h
  rcases maybeCreateHost_spec front.version
      { completeEntry s with
        nonempty_completions := (completeEntry s).nonempty_completions + 1 } with
    ⟨host, hhost, hM⟩ | ⟨hhost, hM⟩ <;> rw [hM] at h <;>
    obtain ⟨u, hu, hfin⟩ := Option.map_eq_some'.mp h <;> subst hfin <;>
    rw [finishResolve_explicit] <;>
    rcases applyAddressChange_spec _ _ _ hu with ⟨hcur, rfl⟩ | ⟨hne, host2, hhost2, rfl⟩
  · have hhost' : s.logical_host = some host := hhost
    refine ⟨rfl, fun hn => ?_, fun host0 hh0 => ⟨rfl, rfl, host, hhost', ?_, ?_⟩⟩
    · rw [hn] at hhost'; cases hhost'
    · rw [hhost'] at hh0; rw [Option.some.inj hh0]
    · rw [hhost'] at hh0; rw [Option.some.inj hh0]
  · have hhost' : s.logical_host = some host := hhost
    have hhost2' : s.logical_host = some host2 := hhost2
    have hh2 : host = host2 := by
      rw [hhost'] at hhost2'
      exact Option.some.inj hhost2'
    subst hh2
    refine ⟨rfl, fun hn => ?_, fun host0 hh0 => ⟨rfl, rfl,
      { host with health_check_address := getAddressWithPort front s.port }, rfl, ?_, ?_⟩⟩
    · rw [hn] at hhost'; cases hhost'
    · rw [hhost'] at hh0; rw [Option.some.inj hh0]
    · rw [hhost'] at hh0; rw [Option.some.inj hh0]
  · have hhost' : s.logical_host = none := hhost
    refine ⟨rfl, fun _ => ⟨rfl, rfl, _, rfl, rfl, rfl⟩, fun host0 hh0 => ?_⟩
    rw [hhost'] at hh0
    cases hh0
  · have hhost' : s.logical_host = none := hhost
    have hh2 := Option.some.inj
      (show some { hostname := s.hostname,
                   address := anyAddressForVersion front.version,
                   health_check_address := anyAddressForVersion front.version } =
          some host2 from hhost2)
    refine ⟨rfl, fun _ => ⟨rfl, rfl,
      { host2 with health_check_address := getAddressWithPort front s.port }, rfl, ?_, ?_⟩,
      fun host0 hh0 => ?_⟩
    · rw [← hh2]
    · rw [← hh2]
    · rw [hhost'] at hh0; cases hh0

end LogicalDns

namespace LogicalDns

theorem onResolveComplete_frame (address_list : List Address) (s s' : ClusterState)
    (h : onResolveComplete address_list s = some s') :
    s'.handle = false ∧ s'.inflight = s.inflight - 1 ∧
    s'.update_success = s.update_success + 1 ∧ s'.update_attempt = s.update_attempt ∧
    s'.cancelled = s.cancelled ∧ s'.destroyed = s.destroyed ∧ s'.started = s.started ∧
    s'.timer_armed = true ∧ s'.init_complete = true ∧
    s'.init_signals = (if s.init_complete then s.init_signals else s.init_signals + 1) ∧
    s'.hostname = s.hostname ∧ s'.port = s.port := by
  cases address_list with
  | nil =>
      rw [onResolveComplete_nil] at h
      injection h with h
      subst h
      rw [finishResolve_explicit]
      exact ⟨rfl, rfl, rfl, rfl, rfl, rfl, rfl, rfl, rfl, rfl, rfl, rfl⟩
  | cons front rest =>
      rw [onResolveComplete_cons] at h
      rcases maybeCreateHost_spec front.version
          { completeEntry s with
            nonempty_completions := (completeEntry s).nonempty_completions + 1 } with
        ⟨host, hhost, hM⟩ | ⟨hhost, hM⟩ <;> rw [hM] at h <;>
        obtain ⟨u, hu, hfin⟩ := Option.map_eq_some'.mp h <;> subst hfin <;>
        rw [finishResolve_explicit] <;>
        rcases applyAddressChange_spec _ _ _ hu with ⟨hcur, rfl⟩ | ⟨hne, host2, hhost2, rfl⟩ <;>
        exact ⟨rfl, rfl, rfl, rfl, rfl, rfl, rfl, rfl, rfl, rfl, rfl, rfl⟩

end LogicalDns

namespace LogicalDns

theorem reach_testStarted : Reachable testInit testStarted :=
  Reachable.tail (Reachable.refl testInit) (Step.startPreInit rfl rfl)

theorem reach_testResolved : Reachable testInit testResolved :=
  Reachable.tail reach_testStarted (Step.resolveComplete [addrA] (by decide) rfl)

theorem reach_testDestroyed : Reachable testInit testDestroyed :=
  Reachable.tail reach_testResolved (Step.teardown rfl)

theorem testInit_initial : testInit.Initial := initState_initial "foo.bar.com" 443 5000 2

/-- C1: on a completion with a non-empty result list, if the candidate address
(first entry plus configured port) differs from the stored one or none was
stored, the stored address becomes the candidate, the host's health-check
address becomes the candidate, every worker thread's cache receives the
candidate, and one broadcast happens; if the candidate equals the stored
address, the stored address, the caches and the host are untouched and no
broadcast happens. -/
theorem c1_address_change_propagation (front : Address) (rest : List Address)
    (s s' : ClusterState) (h : onResolveComplete (front :: rest) s = some s') :
    (¬ s.current_resolved_address = some (getAddressWithPort front s.port) →
      s'.current_resolved_address = some (getAddressWithPort front s.port) ∧
      s'.logical_host.map LogicalHost.health_check_address =
        some (getAddressWithPort front s.port) ∧
      (∀ c ∈ s'.per_thread_caches, c = some (getAddressWithPort front s.port)) ∧
      s'.broadcasts = s.broadcasts + 1) ∧
    (s.current_resolved_address = some (getAddressWithPort front s.port) →
      s'.current_resolved_address = s.current_resolved_address ∧
      s'.per_thread_caches = s.per_thread_caches ∧
      s'.broadcasts = s.broadcasts ∧
      (∀ host, s.logical_host = some host → s'.logical_host = some host)) := by
  obtain ⟨hres, hsame, hdiff⟩ := onResolveComplete_addr_spec front rest s s' h
  refine ⟨fun hne => ⟨hres, (hdiff hne).1, (hdiff hne).2.1, (hdiff hne).2.2⟩,
    fun heq => ⟨by rw [hres, heq], (hsame heq).1, (hsame heq).2.1, (hsame heq).2.2⟩⟩

theorem c1_witness : testResolved.broadcasts = testStarted.broadcasts + 1 :=
  ((c1_address_change_propagation addrA [] testStarted testResolved rfl).1 (by decide)).2.2.2

/-- C2: the logical host is created at most once, exactly on the first
completion with a non-empty result list; at creation its address is the
bind-any placeholder of the first entry's IP version; it is registered into
the priority set exactly as many times as it is created; every later
completion keeps the same creation count and mutates the host in place
(hostname and placeholder address are preserved). -/
theorem c2_logical_host_single_creation (s0 s : ClusterState) (h0 : s0.Initial)
    (hr : Reachable s0 s) :
    s.host_creations ≤ 1 ∧
    s.registrations = s.host_creations ∧
    (s.logical_host.isSome ↔ 1 ≤ s.nonempty_completions) ∧
    (∀ front rest s', s.logical_host = none →
      onResolveComplete (front :: rest) s = some s' →
      s'.host_creations = s.host_creations + 1 ∧
      ∃ host, s'.logical_host = some host ∧
        host.address = anyAddressForVersion front.version) ∧
    (∀ address_list s' host0, s.logical_host = some host0 →
      onResolveComplete address_list s = some s' →
      s'.host_creations = s.host_creations ∧
      ∃ host', s'.logical_host = some host' ∧
        host'.hostname = host0.hostname ∧ host'.address = host0.address) := by
  have hinv := inv_reachable h0 hr
  refine ⟨by rw [hinv.creations_eq]; omega, hinv.reg_eq, hinv.host_iff, ?_, ?_⟩
  · intro front rest s' hn h
    obtain ⟨_, hcreate, _⟩ := onResolveComplete_host_spec front rest s s' h
    obtain ⟨hc, _, host, hh, _, haddr⟩ := hcreate hn
    exact ⟨hc, host, hh, haddr⟩
  · intro address_list s' host0 hh0 h
    cases address_list with
    | nil =>
        rw [onResolveComplete_nil] at h
        injection h with h
        subst h
        rw [finishResolve_explicit]
        exact ⟨rfl, host0, hh0, rfl, rfl⟩
    | cons front rest =>
        obtain ⟨_, _, hmut⟩ := onResolveComplete_host_spec front rest s s' h
        exact ⟨(hmut host0 hh0).1, (hmut host0 hh0).2.2⟩

theorem c2_witness : testResolved.host_creations ≤ 1 :=
  (c2_logical_host_single_creation testInit testResolved testInit_initial reach_testResolved).1

/-- C3: createConnection reads only the calling thread's cache slot: a cached
address is used verbatim for both the connection and the host-description
snapshot, an empty cache makes the call abort (no default address), and the
result depends only on that thread's slot. -/
theorem c3_createConnection_uses_thread_cache (s : ClusterState) (tid : Nat) :
    (∀ addr, s.per_thread_caches.getD tid none = some addr →
      createConnection s tid =
        some { connection_address := addr, description_address := addr }) ∧
    (s.per_thread_caches.getD tid none = none → createConnection s tid = none) ∧
    (∀ t : ClusterState,
      t.per_thread_caches.getD tid none = s.per_thread_caches.getD tid none →
      createConnection t tid = createConnection s tid) := by
  refine ⟨?_, ?_, ?_⟩
  · intro addr ha
    unfold createConnection
    rw [ha]
  · intro ha
    unfold createConnection
    rw [ha]
  · intro t ht
    unfold createConnection
    rw [ht]

theorem c3_witness :
    createConnection testResolved 0 =
      some { connection_address := getAddressWithPort addrA 443,
             description_address := getAddressWithPort addrA 443 } :=
  (c3_createConnection_uses_thread_cache testResolved 0).1 (getAddressWithPort addrA 443)
    (by decide)

/-- C4: a completion with an empty result list still increments the success
counter and leaves the stored address, the logical host and every worker
thread's cache unchanged (and performs no broadcast). -/
theorem c4_empty_result_frame (s s' : ClusterState)
    (h : onResolveComplete [] s = some s') :
    s'.update_success = s.update_success + 1 ∧
    s'.current_resolved_address = s.current_resolved_address ∧
    s'.logical_host = s.logical_host ∧
    s'.per_thread_caches = s.per_thread_caches ∧
    s'.broadcasts = s.broadcasts := by
  rw [onResolveComplete_nil] at h
  injection h with h
  subst h
  rw [finishResolve_explicit]
  exact ⟨rfl, rfl, rfl, rfl, rfl⟩

theorem c4_witness :
    ((onResolveComplete [] testResolved).getD testResolved).update_success =
      testResolved.update_success + 1 :=
  (c4_empty_result_frame testResolved ((onResolveComplete [] testResolved).getD testResolved)
    rfl).1

/-- C5: every completion, empty or not, ends in a state with the
initialization signal delivered and the refresh timer re-armed (the callback
never aborts), the signal fires only when it had not fired before, and along
any reachable execution it fires exactly once overall (the signal count is one
as soon as initialization is complete, zero before). -/
theorem c5_completion_signals_and_reschedules :
    (∀ (address_list : List Address) (s : ClusterState), ∃ s',
      onResolveComplete address_list s = some s' ∧
      s'.init_complete = true ∧ s'.timer_armed = true ∧
      s'.init_signals =
        (if s.init_complete then s.init_signals else s.init_signals + 1)) ∧
    (∀ s0 s : ClusterState, s0.Initial → Reachable s0 s →
      s.init_signals = (if s.init_complete then 1 else 0)) := by
  refine ⟨?_, ?_⟩
  · intro address_list s
    obtain ⟨s', hs'⟩ := onResolveComplete_total address_list s
    obtain ⟨_, _, _, _, _, _, _, htm, hic, hsig, _, _⟩ :=
      onResolveComplete_frame address_list s s' hs'
    exact ⟨s', hs', hic, htm, hsig⟩
  · intro s0 s h0 hr
    exact (inv_reachable h0 hr).signals_eq

theorem c5_witness :
    testResolved.init_signals = (if testResolved.init_complete then 1 else 0) :=
  c5_completion_signals_and_reschedules.2 testInit testResolved testInit_initial
    reach_testResolved

end LogicalDns

namespace LogicalDns

/-- C6: construction succeeds exactly for a configuration with one locality
endpoint holding one endpoint, an empty resolver name, and a hostname and
port parseable from the derived tcp URL; any other shape yields a
configuration error; a successfully constructed state is pristine (its
resolution loop has not started). -/
theorem c6_construction_validation (threads : Nat) (cfg : ClusterConfig) :
    ((∃ st, mkLogicalDnsCluster threads cfg = Except.ok st) ↔
      ∃ locality lb, cfg.endpoints = [locality] ∧ locality.lb_endpoints = [lb] ∧
        lb.socket_address.resolver_name = "" ∧
        (hostFromTcpUrl
          (tcpUrl lb.socket_address.address lb.socket_address.port_value)).isSome = true ∧
        (portFromTcpUrl
          (tcpUrl lb.socket_address.address lb.socket_address.port_value)).isSome = true) ∧
    (∀ st, mkLogicalDnsCluster threads cfg = Except.ok st → st.Initial) := by
  constructor
  · constructor
    · rintro ⟨st, hst⟩
      unfold mkLogicalDnsCluster at hst
      split at hst
      · rename_i locality hE
        split at hst
        · rename_i lb hL
          split at hst
          · exact Except.noConfusion hst
          · rename_i hres
            split at hst
            · rename_i host port hhost hport
              exact ⟨locality, lb, hE, hL, by simpa using hres,
                by rw [hhost]; rfl, by rw [hport]; rfl⟩
            · exact Except.noConfusion hst
        · exact Except.noConfusion hst
      · exact Except.noConfusion hst
    · rintro ⟨locality, lb, hE, hL, hres, hhp, hpp⟩
      obtain ⟨host, hhost⟩ := Option.isSome_iff_exists.mp hhp
      obtain ⟨port, hport⟩ := Option.isSome_iff_exists.mp hpp
      refine ⟨initState host port (cfg.dns_refresh_rate.getD 5000) threads, ?_⟩
      unfold mkLogicalDnsCluster
      rw [hE]
      simp [hL, hres, hhost, hport]
  · intro st hst
    unfold mkLogicalDnsCluster at hst
    split at hst
    · split at hst
      · split at hst
        · exact Except.noConfusion hst
        · split at hst
          · rename_i host port hhost hport
            rw [← Except.ok.inj hst]
            exact initState_initial host port (cfg.dns_refresh_rate.getD 5000) threads
          · exact Except.noConfusion hst
      · exact Except.noConfusion hst
    · exact Except.noConfusion hst

theorem c6_witness : ∃ st, mkLogicalDnsCluster 2 testConfig = Except.ok st :=
  (c6_construction_validation 2 testConfig).1.mpr
    ⟨testLocality, testLb, rfl, rfl, rfl, by decide, by decide⟩

/-- C7: at most one query is outstanding at any reachable state (the cluster
holds the handle exactly when one is in flight); startResolve always sets the
handle and every completion clears it first; once the cluster is destroyed
the query count is zero and no step at all — in particular no completion
callback — can fire any more. -/
theorem c7_outstanding_query_lifecycle (s0 s : ClusterState) (h0 : s0.Initial)
    (hr : Reachable s0 s) :
    s.inflight ≤ 1 ∧
    (s.handle = true ↔ s.inflight = 1) ∧
    (∀ u : ClusterState, (startResolve u).handle = true) ∧
    (∀ (address_list : List Address) (u u' : ClusterState),
      onResolveComplete address_list u = some u' → u'.handle = false) ∧
    (s.destroyed = true → s.inflight = 0 ∧ ∀ t, ¬ Step s t) := by
  have hinv := inv_reachable h0 hr
  refine ⟨?_, ?_, fun u => rfl, ?_, ?_⟩
  · rw [hinv.inflight_eq]
    split <;> omega
  · cases hh2 : s.handle <;> simp [hh2, hinv.inflight_eq]
  · intro address_list u u' h
    exact (onResolveComplete_frame address_list u u' h).1
  · intro hd
    have hh := hinv.destroyed_no_handle hd
    have hi : s.inflight = 0 := by simp [hinv.inflight_eq, hh]
    exact ⟨hi, fun t => no_step_after_destroy hinv hd⟩

theorem c7_witness : testDestroyed.inflight = 0 :=
  ((c7_outstanding_query_lifecycle testInit testDestroyed testInit_initial
    reach_testDestroyed).2.2.2.2 rfl).1

/-- C8: the candidate address of a non-empty completion is built from the
first entry of the result list and the configured port only: the result state
does not depend on the later entries, and the stored address after the
completion is always the first entry combined with the configured port. -/
theorem c8_first_result_wins (front : Address) (rest1 rest2 : List Address)
    (s : ClusterState) :
    onResolveComplete (front :: rest1) s = onResolveComplete (front :: rest2) s ∧
    (∀ s', onResolveComplete (front :: rest1) s = some s' →
      s'.current_resolved_address = some (getAddressWithPort front s.port)) := by
  refine ⟨rfl, ?_⟩
  intro s' h
  exact (onResolveComplete_addr_spec front rest1 s s' h).1

theorem c8_witness :
    testResolved.current_resolved_address = some (getAddressWithPort addrA 443) :=
  (c8_first_result_wins addrA [] [addrB] testStarted).2 testResolved rfl

/-- C9: the attempt counter is incremented exactly once per startResolve and
the success counter exactly once per completion, so in every reachable state
the attempt count is at least the success count and exceeds it by at most
one. -/
theorem c9_attempt_success_counters (s0 s : ClusterState) (h0 : s0.Initial)
    (hr : Reachable s0 s) :
    s.update_success ≤ s.update_attempt ∧
    s.update_attempt ≤ s.update_success + 1 ∧
    (∀ u : ClusterState, (startResolve u).update_attempt = u.update_attempt + 1 ∧
      (startResolve u).update_success = u.update_success) ∧
    (∀ (address_list : List Address) (u u' : ClusterState),
      onResolveComplete address_list u = some u' →
      u'.update_success = u.update_success + 1 ∧ u'.update_attempt = u.update_attempt) := by
  have hinv := inv_reachable h0 hr
  have ha := hinv.attempt_eq
  have hkey : s.cancelled + s.inflight ≤ 1 := by
    cases hd : s.destroyed
    · have hc := hinv.cancelled_live hd
      have hi : s.inflight ≤ 1 := by
        rw [hinv.inflight_eq]
        split <;> omega
      omega
    · have hh := hinv.destroyed_no_handle hd
      have hi : s.inflight = 0 := by simp [hinv.inflight_eq, hh]
      have hc := hinv.cancelled_le
      omega
  refine ⟨by omega, by omega, fun u => ⟨rfl, rfl⟩, ?_⟩
  intro address_list u u' h
  obtain ⟨_, _, hsucc, hatt, _⟩ := onResolveComplete_frame address_list u u' h
  exact ⟨hsucc, hatt⟩

theorem c9_witness : testResolved.update_success ≤ testResolved.update_attempt :=
  (c9_attempt_success_counters testInit testResolved testInit_initial reach_testResolved).1

/-- C10: the unguarded health-check update can never dereference a null host:
the completion callback is total (host creation precedes the address-change
branch inside the same non-empty block), and in every reachable state a
stored resolved address implies the logical host exists. -/
theorem c10_resolved_implies_host :
    (∀ (address_list : List Address) (s : ClusterState), ∃ s',
      onResolveComplete address_list s = some s') ∧
    (∀ s0 s : ClusterState, s0.Initial → Reachable s0 s →
      s.current_resolved_address.isSome = true → s.logical_host.isSome = true) :=
  ⟨onResolveComplete_total, fun _ _ h0 hr => (inv_reachable h0 hr).resolved_host⟩

theorem c10_witness : testResolved.logical_host.isSome = true :=
  c10_resolved_implies_host.2 testInit testResolved testInit_initial reach_testResolved
    (by decide)

end LogicalDns
